import Mathlib

/-!
Verification of the chip / inference / unchip pipeline of
`app/geoprocessor/utils/object_detection.py` (DebrisScan).

The Python functions are embedded shallowly:
* numpy arrays become index functions (`ℕ → ℕ → ℕ → ℕ`) or nested lists;
  machine integers become `ℕ`/`ℤ`; floating point scores and normalized
  coordinates become exact rationals `ℚ`;
* code that can raise returns `Except String _`, the string naming the
  Python exception raised;
* the concurrent `asyncio.gather` dispatch of `batch_inference` is embedded
  as a fold over the per-batch HTTP outcomes: `gather` without
  `return_exceptions=True` re-raises the first exception of any task, so the
  whole dispatch errors exactly when some batch errors, and otherwise each
  batch `i` contributes its entry to the results dict independently of
  completion order (keys are explicit).
-/

/- The Batteries rational operations are `@[irreducible]`, which blocks
`decide` on concrete rational arithmetic; restore default reducibility. -/
attribute [local semireducible] Rat.mul Rat.inv Rat.add Rat.sub Rat.ofScientific

deriving instance DecidableEq for Except

namespace DebrisScan

/-- Python `int()` applied to an exact real: truncation toward zero. -/
def pyInt (q : ℚ) : ℤ := if 0 ≤ q then ⌊q⌋ else ⌈q⌉

/-- Exact value of `math.ceil(a / b)` for naturals with `b > 0`. -/
def ceil_div (a b : ℕ) : ℕ := (a + b - 1) / b

/-! ## Tiler: `chip_geo_image` and helpers -/

/-- A decoded image raster: a 3-dimensional array of shape
(height, width, channels); `data y x c` is the sample at row `y`,
column `x`, channel `c` (uint8 samples in the pipeline, modelled as `ℕ`). -/
structure Raster where
  height : ℕ
  width : ℕ
  channels : ℕ
  data : ℕ → ℕ → ℕ → ℕ

/-- `num_height_tiles = math.ceil(img_height / tile_height)` (line 179). -/
def num_height_tiles (img : Raster) (tile_height : ℕ) : ℕ :=
  ceil_div img.height tile_height

/-- `num_width_tiles = math.ceil(img_width / tile_width)` (line 180). -/
def num_width_tiles (img : Raster) (tile_width : ℕ) : ℕ :=
  ceil_div img.width tile_width

/-- `height_pad = (tile_height * num_height_tiles) - img_height` (line 187). -/
def height_pad (img : Raster) (tile_height : ℕ) : ℕ :=
  tile_height * num_height_tiles img tile_height - img.height

/-- `width_pad = (tile_width * num_width_tiles) - img_width` (line 188). -/
def width_pad (img : Raster) (tile_width : ℕ) : ℕ :=
  tile_width * num_width_tiles img tile_width - img.width

/-- `np.pad(data, [(before_h, after_h), (before_w, after_w), (0, 0)],
mode="constant", constant_values=cv)` as an index function: the original
array of extent `H × W` is shifted by the `before` amounts and every padded
position reads the constant `cv`.  (The `after` amounts only enlarge the
extent, which the function model carries separately.) -/
def np_pad (data : ℕ → ℕ → ℕ → ℕ) (H W before_h before_w cv : ℕ) :
    ℕ → ℕ → ℕ → ℕ :=
  fun y x c =>
    if before_h ≤ y ∧ y < before_h + H ∧ before_w ≤ x ∧ x < before_w + W then
      data (y - before_h) (x - before_w) c
    else cv

/-- `padded_image` (lines 191–196): the input is padded with the constant
`nodata_value`, with zero padding before (top/left) in both padded axes. -/
def padded_image (img : Raster) (nodata_value : ℕ) : ℕ → ℕ → ℕ → ℕ :=
  np_pad img.data img.height img.width 0 0 nodata_value

/-- Height of the padded image. -/
def padded_height (img : Raster) (tile_height : ℕ) : ℕ :=
  img.height + height_pad img tile_height

/-- Width of the padded image. -/
def padded_width (img : Raster) (tile_width : ℕ) : ℕ :=
  img.width + width_pad img tile_width

/-- The padded image as a flat C-order (row-major) sequence, the layout on
which numpy `reshape` operates. -/
def flat_padded (img : Raster) (tile_width ndv : ℕ) (k : ℕ) : ℕ :=
  padded_image img ndv (k / (padded_width img tile_width * img.channels))
    (k / img.channels % padded_width img tile_width) (k % img.channels)

/-- `tiled_array = padded_image.reshape(num_height_tiles, tile_height,
num_width_tiles, tile_width, channels)` (lines 199–201): C-order reshape of
the flat padded sequence into a 5-dimensional array. -/
def tiled_array (img : Raster) (tile_height tile_width ndv : ℕ)
    (a b d e f : ℕ) : ℕ :=
  flat_padded img tile_width ndv
    ((((a * tile_height + b) * num_width_tiles img tile_width + d) *
      tile_width + e) * img.channels + f)

/-- `tiled_array.swapaxes(1, 2)` (line 202). -/
def swapped_array (img : Raster) (tile_height tile_width ndv : ℕ)
    (a d b e f : ℕ) : ℕ :=
  tiled_array img tile_height tile_width ndv a b d e f

/-- `single_index_array = tiled_array.reshape(-1, tile_height, tile_width,
channels)` (line 207): the first two axes collapse into one chip index. -/
def single_index_array (img : Raster) (tile_height tile_width ndv : ℕ)
    (i b e f : ℕ) : ℕ :=
  swapped_array img tile_height tile_width ndv
    (i / num_width_tiles img tile_width) (i % num_width_tiles img tile_width)
    b e f

/-- The chip array materialized as nested lists of shape
`(num_chips, tile_height, tile_width, channels)`. -/
def chipList (img : Raster) (tile_height tile_width ndv : ℕ) :
    List (List (List (List ℕ))) :=
  (List.range (num_height_tiles img tile_height *
      num_width_tiles img tile_width)).map fun i =>
    (List.range tile_height).map fun b =>
      (List.range tile_width).map fun e =>
        (List.range img.channels).map fun f =>
          single_index_array img tile_height tile_width ndv i b e f

/-- `tops = [y * tile_height for y in range(0, num_height_tiles)]`
(lines 227–229). -/
def tops (img : Raster) (tile_height : ℕ) : List ℕ :=
  (List.range (num_height_tiles img tile_height)).map (· * tile_height)

/-- `lefts = [x * tile_width for x in range(0, num_width_tiles)]`
(lines 230–232). -/
def lefts (img : Raster) (tile_width : ℕ) : List ℕ :=
  (List.range (num_width_tiles img tile_width)).map (· * tile_width)

/-- `tl_pairs`: outer loop over `tops`, inner loop over `lefts`
(lines 234–240). -/
def tl_pairs (img : Raster) (tile_height tile_width : ℕ) : List (ℕ × ℕ) :=
  ((tops img tile_height).map fun t =>
    (lefts img tile_width).map fun l => (t, l)).flatten

/-! ## Blank-chip filter: `ndv_check` and the thinning pass -/

/-- `np.array_equal(chip, const)` where `const` is the constant array of the
chip's shape filled with `v` (shapes agree by construction, so the check is
element-wise). -/
def array_equal_const (chip : List (List (List ℕ))) (v : ℕ) : Bool :=
  chip.all fun row => row.all fun px => px.all fun s => s == v

/-- `ndv_check` (lines 65–110): a chip is flagged blank when it equals the
constant array of `max_value` (`np.iinfo(chip.dtype).max`, 255 for the
pipeline's uint8 rasters) or the constant zero array. -/
def ndv_check (max_value : ℕ) (chip : List (List (List ℕ))) : Bool :=
  array_equal_const chip max_value || array_equal_const chip 0

/-- `idxs_to_delete` (lines 245–248): indices of the blank chips, in order. -/
def idxs_to_delete (max_value : ℕ) (chips : List (List (List (List ℕ)))) :
    List ℕ :=
  (List.range chips.length).filter fun i => ndv_check max_value (chips.getD i [])

/-- `np.delete(xs, idxs, axis=0)`: drop the positions listed in `idxs`,
keeping the order of the survivors. -/
def np_delete {α : Type} (xs : List α) (idxs : List ℕ) : List α :=
  (List.range xs.length).filterMap fun i =>
    if idxs.contains i then none else xs[i]?

/-- All samples of a chip, flattened. -/
def chipSamples (chip : List (List (List ℕ))) : List ℕ :=
  chip.flatten.flatten

/-- `chip_geo_image` (lines 113–300) as a fallible function.  `tile_height`
and `tile_width` are integers so that the non-positive cases can be
expressed: a zero tile dimension raises `ZeroDivisionError` inside
`math.ceil(h / tile)`, and a negative one always raises a `ValueError`
(either `np.pad` rejects a negative pad width or `reshape` rejects the
negative dimensions) before any chip is produced.  In on-disk mode with
thinning disabled, line 277 reads the local `idxs_to_delete`, which is only
assigned inside the `thin_nodata_chips` branch, raising
`UnboundLocalError` after the chips are built but before the function
returns.  The on-disk file writes themselves are I/O and are not modelled;
the returned value is the (possibly thinned) chip array and TopLeft array. -/
def chip_geo_image (img : Raster) (tile_height tile_width : ℤ)
    (nodata_value : ℕ) (thin_nodata_chips : Bool) (on_disk : Bool) :
    Except String (List (List (List (List ℕ))) × List (ℕ × ℕ)) :=
  if tile_height = 0 ∨ tile_width = 0 then
    .error "ZeroDivisionError: division by zero"
  else if tile_height < 0 ∨ tile_width < 0 then
    .error "ValueError: negative dimensions are not allowed"
  else
    let th := tile_height.toNat
    let tw := tile_width.toNat
    let chips := chipList img th tw nodata_value
    let tl := tl_pairs img th tw
    let thinned :=
      if thin_nodata_chips then
        let idxs := idxs_to_delete 255 chips
        (np_delete chips idxs, np_delete tl idxs)
      else (chips, tl)
    if on_disk && !thin_nodata_chips then
      .error "UnboundLocalError: local variable idxs_to_delete referenced before assignment"
    else .ok thinned

/-! ## Inference dispatcher: `_async_post` and `batch_inference` -/

/-- One entry of the `predictions` array of a TensorFlow Serving response:
parallel sequences of scores, class ids and normalized
(ymin, xmin, ymax, xmax) boxes. -/
structure Prediction where
  detection_scores : List ℚ
  detection_classes : List ℕ
  detection_boxes : List (ℚ × ℚ × ℚ × ℚ)
deriving DecidableEq

/-- The per-chip entry stored into the results dict by `_async_post`
(lines 403–420). -/
structure FormattedPrediction where
  detection_scores : List ℚ
  detection_classes : List ℕ
  detection_boxes : List (ℚ × ℚ × ℚ × ℚ)
deriving DecidableEq

/-- Outcome of one batch HTTP POST, as observed by `_async_post`:
the request can raise a network error, the body can fail to parse as JSON,
or a JSON object arrives carrying an optional `"predictions"` array and an
optional `"error"` message. -/
inductive BatchResponse where
  | netError : BatchResponse
  | badJson : BatchResponse
  | json : Option (List Prediction) → Option String → BatchResponse
deriving DecidableEq

/-- numpy boolean-mask selection `xs[mask]`: defined only when the mask
length matches (otherwise numpy raises `IndexError`). -/
def np_bool_mask {α : Type} (mask : List Bool) (xs : List α) :
    Option (List α) :=
  if mask.length = xs.length then
    some ((mask.zip xs).filterMap fun p => if p.1 then some p.2 else none)
  else none

/-- The score/class/box filtering of `_async_post` on
`cats = pred["predictions"][0]` (lines 392–420): scores at or above
`conf_threshold` are kept; when none survives nothing is stored
(`.ok none`); the classes and boxes are selected with the same boolean
mask, raising `IndexError` if their lengths disagree with the scores. -/
def format_prediction (conf_threshold : ℚ) (cats : Prediction) :
    Except String (Option FormattedPrediction) :=
  let mask := cats.detection_scores.map fun s => decide (conf_threshold ≤ s)
  let filtered_scores :=
    (mask.zip cats.detection_scores).filterMap fun p =>
      if p.1 then some p.2 else none
  if 0 < filtered_scores.length then
    match np_bool_mask mask cats.detection_classes,
        np_bool_mask mask cats.detection_boxes with
    | some filtered_classes, some filtered_bboxes =>
        .ok (some ⟨filtered_scores, filtered_classes, filtered_bboxes⟩)
    | _, _ => .error "IndexError: boolean index did not match indexed array"
  else .ok none

/-- `_async_post` (lines 356–429) on one batch outcome.  A network failure
or malformed JSON raises.  With a `"predictions"` key the first entry is
read (`pred["predictions"][0]`, an `IndexError` when empty) and filtered.
Without it, the code prints `pred["error"]`: fine when the `"error"` key is
present (the batch is merely skipped), a `KeyError` otherwise. -/
def async_post (conf_threshold : ℚ) (resp : BatchResponse) :
    Except String (Option FormattedPrediction) :=
  match resp with
  | .netError => .error "aiohttp.ClientConnectorError"
  | .badJson => .error "aiohttp.ContentTypeError"
  | .json (some preds) _ =>
    match preds with
    | [] => .error "IndexError: list index out of range"
    | cats :: _ => format_prediction conf_threshold cats
  | .json none err =>
    match err with
    | some _ => .ok none
    | none => .error "KeyError: error"

/-- The result of `asyncio.gather` over `_async_post(batches[i], i, results)`
for `i = k, k+1, ...`: with the default `return_exceptions=False` the dispatch
raises as soon as any task raised; otherwise every batch with surviving
detections contributes the entry keyed by its batch index. -/
def gather_results (conf_threshold : ℚ) :
    ℕ → List BatchResponse → Except String (List (ℕ × FormattedPrediction))
  | _, [] => .ok []
  | i, r :: rs =>
    match async_post conf_threshold r, gather_results conf_threshold (i + 1) rs with
    | .error e, _ => .error e
    | .ok _, .error e => .error e
    | .ok none, .ok m => .ok m
    | .ok (some fp), .ok m => .ok ((i, fp) :: m)

/-- The sizes of the `n` parts of `np.array_split(xs, n)`: the first
`len % n` parts get `len / n + 1` elements, the rest `len / n`. -/
def split_sizes (n q r : ℕ) : List ℕ :=
  (List.range n).map fun i => if i < r then q + 1 else q

/-- Cut a list into consecutive chunks of the given sizes. -/
def take_chunks {α : Type} : List ℕ → List α → List (List α)
  | [], _ => []
  | s :: ss, xs => xs.take s :: take_chunks ss (xs.drop s)

/-- `np.array_split(xs, n)` for `n > 0`: `n` contiguous parts. -/
def np_array_split {α : Type} (xs : List α) (n : ℕ) : List (List α) :=
  take_chunks (split_sizes n (xs.length / n) (xs.length % n)) xs

/-- `batch_inference` (lines 432–476).  `server` abstracts the inference
endpoint: it maps the payload of one batch request to that request's
outcome.  `conf_threshold` is the user percentage (0–100), converted to a
fraction by `conf_threshold / 100` (line 463).  `concurrency` is the
client-side batch size: `math.ceil(len(instances) / concurrency)` batches
are produced by `np.array_split` (`ZeroDivisionError` when `concurrency`
is 0, and `np.array_split` raises `ValueError` when asked for 0 sections,
i.e. when `instances` is empty). -/
def batch_inference {α : Type} (server : List α → BatchResponse)
    (instances : List α) (conf_threshold : ℚ) (concurrency : ℕ) :
    Except String (List (ℕ × FormattedPrediction)) :=
  if concurrency = 0 then .error "ZeroDivisionError: division by zero"
  else if ceil_div instances.length concurrency = 0 then
    .error "ValueError: number sections must be larger than 0."
  else
    gather_results (conf_threshold / 100) 0
      ((np_array_split instances
        (ceil_div instances.length concurrency)).map server)

/-! ## Untiler: `_denormalize_coordinates` and `unchip_geo_image` -/

/-- `_denormalize_coordinates` (lines 559–591): each normalized coordinate
is scaled by the image dimension and converted with Python `int()`
(truncation), in (ymin, xmin, ymax, xmax) order. -/
def denormalize_coordinates (bbox : ℚ × ℚ × ℚ × ℚ) (im_height im_width : ℕ) :
    ℤ × ℤ × ℤ × ℤ :=
  (pyInt (bbox.1 * im_height), pyInt (bbox.2.1 * im_width),
   pyInt (bbox.2.2.1 * im_height), pyInt (bbox.2.2.2 * im_width))

/-- Modelled from the spec for comparison with `denormalize_coordinates`:
§4.3 prescribes `top = round(ymin * chip_height)` etc., i.e. rounding to
the nearest integer rather than truncation. -/
def round_denormalize_spec (bbox : ℚ × ℚ × ℚ × ℚ) (im_height im_width : ℕ) :
    ℤ × ℤ × ℤ × ℤ :=
  (round (bbox.1 * im_height), round (bbox.2.1 * im_width),
   round (bbox.2.2.1 * im_height), round (bbox.2.2.2 * im_width))

/-- The merged per-image detections assembled by `unchip_geo_image`. -/
structure Merged where
  bboxes : List (ℤ × ℤ × ℤ × ℤ)
  scores : List ℚ
  classes : List ℕ
deriving DecidableEq

/-- Translation of one normalized box of a chip whose TopLeft is
`(y_offset, x_offset)` (lines 331–338): denormalize against the chip
extent, then add the offsets to the y- and x-coordinates respectively. -/
def translate_bbox (y_offset x_offset chip_height chip_width : ℕ)
    (nb : ℚ × ℚ × ℚ × ℚ) : ℤ × ℤ × ℤ × ℤ :=
  let b := denormalize_coordinates nb chip_height chip_width
  ((y_offset : ℤ) + b.1, (x_offset : ℤ) + b.2.1,
   (y_offset : ℤ) + b.2.2.1, (x_offset : ℤ) + b.2.2.2)

/-- The loop of `unchip_geo_image` (lines 327–345) over the entries of the
results dict in iteration (= insertion) order: each present chip index `i`
looks up `toplefts_array[i]` (an `IndexError` when out of range) and
appends its translated boxes, its scores and its classes. -/
def unchip_go (tl : List (ℕ × ℕ)) (chip_height chip_width : ℕ) :
    List (ℕ × FormattedPrediction) → Except String Merged
  | [] => .ok ⟨[], [], []⟩
  | (i, res) :: rest =>
    match tl[i]? with
    | none => .error "IndexError: index out of bounds for axis 0"
    | some (y_offset, x_offset) =>
      match unchip_go tl chip_height chip_width rest with
      | .error e => .error e
      | .ok m =>
        .ok ⟨res.detection_boxes.map
              (translate_bbox y_offset x_offset chip_height chip_width) ++
              m.bboxes,
             res.detection_scores ++ m.scores,
             res.detection_classes ++ m.classes⟩

/-- `unchip_geo_image` (lines 303–353): merge the per-chip detections into
one dict keyed by the image basename. -/
def unchip_geo_image (img_basename : String)
    (inference_results : List (ℕ × FormattedPrediction))
    (toplefts : List (ℕ × ℕ)) (chip_height chip_width : ℕ) :
    Except String (String × Merged) :=
  (unchip_go toplefts chip_height chip_width inference_results).map
    fun m => (img_basename, m)

/-- Insert an entry into a key-sorted association list. -/
def insertByKey (p : ℕ × FormattedPrediction) :
    List (ℕ × FormattedPrediction) → List (ℕ × FormattedPrediction)
  | [] => [p]
  | q :: qs => if p.1 ≤ q.1 then p :: q :: qs else q :: insertByKey p qs

/-- Sort an association list by ascending key (insertion sort). -/
def sortByKey (l : List (ℕ × FormattedPrediction)) :
    List (ℕ × FormattedPrediction) :=
  l.foldr insertByKey []

/-- Modelled from the spec for comparison with `unchip_geo_image`:
§4.4/§8 prescribe concatenation "in ascending chip-index order", i.e. the
merge applied to the detection map with its keys in ascending order. -/
def unchip_ascending_spec (img_basename : String)
    (inference_results : List (ℕ × FormattedPrediction))
    (toplefts : List (ℕ × ℕ)) (chip_height chip_width : ℕ) :
    Except String (String × Merged) :=
  unchip_geo_image img_basename (sortByKey inference_results) toplefts
    chip_height chip_width

/-! ## Statements of the claims -/

/-- The ideal inference endpoint: it answers a batch of chips with one
prediction per chip, in batch order (TensorFlow Serving's per-instance
`predictions` array), and never fails. -/
def perChipServer (preds : ℕ → Prediction) : List ℕ → BatchResponse :=
  fun batch => .json (some (batch.map preds)) none

/-- The boolean filter `score >= conf_threshold` of line 395. -/
def keep (t : ℚ) : ℚ → Bool := fun s => decide (t ≤ s)

/-- Well-formedness of one server prediction: the three parallel arrays
have equal lengths. -/
def predWf (cats : Prediction) : Bool :=
  (cats.detection_classes.length == cats.detection_scores.length) &&
  (cats.detection_boxes.length == cats.detection_scores.length)

/-- A batch outcome that `_async_post` survives: either a response with a
non-empty, well-formed `"predictions"` array, or a response with no
`"predictions"` key but an `"error"` key. -/
def benign (r : BatchResponse) : Bool :=
  match r with
  | .json (some (cats :: _)) _ => predWf cats
  | .json none (some _) => true
  | _ => false

/-- The claim C2 property of the Tiler, for a raster and a tile size:
chip count `ceil(H/h) * ceil(W/w)`; every chip of shape
(tile_height, tile_width, channels); TopLefts in row-major order at
`(row * h, col * w)`; chip `i` equal to the padded-image slice at
TopLeft `i`; and the chip extents tile the padded image with no gaps or
overlaps. -/
def TilerClaim (img : Raster) (th tw ndv : ℕ) : Prop :=
  ((chipList img th tw ndv).length =
    (⌈(img.height : ℚ) / (th : ℚ)⌉ * ⌈(img.width : ℚ) / (tw : ℚ)⌉).toNat)
  ∧ (∀ chip ∈ chipList img th tw ndv, chip.length = th ∧
      ∀ row ∈ chip, row.length = tw ∧ ∀ px ∈ row, px.length = img.channels)
  ∧ (tl_pairs img th tw).length =
      num_height_tiles img th * num_width_tiles img tw
  ∧ (∀ i, i < num_height_tiles img th * num_width_tiles img tw →
      (tl_pairs img th tw).getD i (0, 0) =
        ((i / num_width_tiles img tw) * th, (i % num_width_tiles img tw) * tw))
  ∧ (∀ i b e f, i < num_height_tiles img th * num_width_tiles img tw →
      b < th → e < tw → f < img.channels →
      ((((chipList img th tw ndv).getD i []).getD b []).getD e []).getD f 0 =
        single_index_array img th tw ndv i b e f)
  ∧ (∀ i b e f, i < num_height_tiles img th * num_width_tiles img tw →
      b < th → e < tw → f < img.channels →
      single_index_array img th tw ndv i b e f =
        padded_image img ndv ((i / num_width_tiles img tw) * th + b)
          ((i % num_width_tiles img tw) * tw + e) f)
  ∧ (∀ y x, y < padded_height img th → x < padded_width img tw →
      ∃! i, i < num_height_tiles img th * num_width_tiles img tw ∧
        (i / num_width_tiles img tw) * th ≤ y ∧
        y < (i / num_width_tiles img tw) * th + th ∧
        (i % num_width_tiles img tw) * tw ≤ x ∧
        x < (i % num_width_tiles img tw) * tw + tw)

/-- The claim C7 property of the padding step: original pixels keep their
coordinates, every padded position reads the sentinel, and an evenly
divisible raster gets zero padding and exactly `(H/h) * (W/w)` chips. -/
def PaddingClaim (img : Raster) (ndv th tw : ℕ) : Prop :=
  (∀ y x c, y < img.height → x < img.width →
    padded_image img ndv y x c = img.data y x c)
  ∧ (∀ y x c, img.height ≤ y ∨ img.width ≤ x →
    padded_image img ndv y x c = ndv)
  ∧ (th ∣ img.height → tw ∣ img.width →
    height_pad img th = 0 ∧ width_pad img tw = 0 ∧
    (chipList img th tw ndv).length = img.height / th * (img.width / tw))

/-- The (amended) claim C1 property of one gather over batch outcomes
`rs` with first batch index `k`: the dispatch returns a map whose entries
are exactly the surviving detections of each batch, keyed by batch
index. -/
def GatherClaim (conf : ℚ) (k : ℕ) (rs : List BatchResponse) : Prop :=
  ∃ m, gather_results conf k rs = .ok m ∧
    ∀ i fp, ((i, fp) ∈ m ↔ ∃ j, ∃ hj : j < rs.length, i = k + j ∧
      async_post conf rs[j] = .ok (some fp))

/-- The claim C5 property of the per-chip threshold filter: scores at or
above the converted threshold are kept, classes and boxes are selected by
the same mask in the same relative order, and a chip with no survivor
stores nothing. -/
def ThresholdClaim (conf : ℚ) (cats : Prediction) : Prop :=
  format_prediction (conf / 100) cats =
    if (cats.detection_scores.filter (keep (conf / 100))).isEmpty then
      .ok none
    else
      .ok (some
        ⟨cats.detection_scores.filter (keep (conf / 100)),
         ((cats.detection_scores.zip cats.detection_classes).filter fun q =>
           keep (conf / 100) q.1).map (·.2),
         ((cats.detection_scores.zip cats.detection_boxes).filter fun q =>
           keep (conf / 100) q.1).map (·.2)⟩)

/-- The claim C10 invariant of every entry stored in a dispatch result:
equal, strictly positive array lengths and every stored score at or above
the converted threshold. -/
def StoredInvariant (conf : ℚ) (m : List (ℕ × FormattedPrediction)) : Prop :=
  ∀ e ∈ m,
    e.2.detection_scores.length = e.2.detection_classes.length ∧
    e.2.detection_scores.length = e.2.detection_boxes.length ∧
    0 < e.2.detection_scores.length ∧
    ∀ s ∈ e.2.detection_scores, conf / 100 ≤ s

/-- The (amended) claim C6 property of a dispatch with client batch size 1
against the ideal per-chip endpoint: the returned map has an entry for
chip index `i` exactly when chip `i` bears surviving detections, holding
that chip's filtered detections. -/
def PerChipDispatchClaim (preds : ℕ → Prediction) (L : ℕ) (conf : ℚ) : Prop :=
  ∃ m, batch_inference (perChipServer preds) (List.range L) conf 1 = .ok m ∧
    ∀ i fp, ((i, fp) ∈ m ↔ i < L ∧
      format_prediction (conf / 100) (preds i) = .ok (some fp))

/-- The (amended) claim C3 property of the Untiler: the merge succeeds and
concatenates, in the detection map's iteration (insertion) order, each
present chip's translated boxes, scores and classes — so every input
detection appears exactly once and within-chip order is preserved. -/
def UntilerClaim (img_basename : String)
    (results : List (ℕ × FormattedPrediction)) (tl : List (ℕ × ℕ))
    (chip_height chip_width : ℕ) : Prop :=
  unchip_geo_image img_basename results tl chip_height chip_width =
    .ok (img_basename,
      ⟨results.flatMap fun e =>
          e.2.detection_boxes.map
            (translate_bbox (tl.getD e.1 (0, 0)).1 (tl.getD e.1 (0, 0)).2
              chip_height chip_width),
       results.flatMap fun e => e.2.detection_scores,
       results.flatMap fun e => e.2.detection_classes⟩)

/-- The (amended) claim C8 property of the blank-chip filter: a chip is
blank iff all of its samples equal `max_value` or all equal 0; a constant
chip of either value is blank; a chip holding both a non-zero and a
non-max sample is not; thinning drops exactly the blank chips and applies
the same index mask to chips and TopLefts, preserving relative order. -/
def BlankThinClaim (max_value : ℕ) (chips : List (List (List (List ℕ))))
    (tl : List (ℕ × ℕ)) : Prop :=
  (∀ chip, ndv_check max_value chip = true ↔
    ((∀ s ∈ chipSamples chip, s = max_value) ∨ (∀ s ∈ chipSamples chip, s = 0)))
  ∧ (∀ n m k, ndv_check max_value
        (List.replicate n (List.replicate m (List.replicate k 0))) = true ∧
      ndv_check max_value
        (List.replicate n (List.replicate m (List.replicate k max_value))) = true)
  ∧ (∀ chip, (∃ s ∈ chipSamples chip, s ≠ 0) →
      (∃ s ∈ chipSamples chip, s ≠ max_value) →
      ndv_check max_value chip = false)
  ∧ np_delete chips (idxs_to_delete max_value chips) =
      chips.filter (fun c => !(ndv_check max_value c))
  ∧ np_delete tl (idxs_to_delete max_value chips) =
      ((chips.zip tl).filter fun q => !(ndv_check max_value q.1)).map (·.2)

/-! ## Concrete inputs used by witnesses and counterexamples -/

/-- A 3 × 5 × 1 example raster with pairwise distinct samples. -/
def exRaster : Raster := ⟨3, 5, 1, fun y x c => 100 * y + 10 * x + c + 7⟩

/-- A prediction with one high-scoring detection. -/
def exPrediction : Prediction := ⟨[mkRat 9 10], [1], [(0, 0, 0, 0)]⟩

/-- A server whose first batch succeeds and whose other batches fail with a
network error. -/
def c1Server : List ℕ → BatchResponse := fun b =>
  if b = [0] then .json (some [exPrediction]) none else .netError

/-- The spec's §8 threshold example: scores 0.1, 0.35, 0.9. -/
def c5Prediction : Prediction :=
  ⟨[mkRat 1 10, mkRat 35 100, mkRat 9 10], [1, 2, 3],
   [(0, 0, 0, 0), (0, 0, mkRat 1 2, mkRat 1 2), (mkRat 1 2, mkRat 1 2, 1, 1)]⟩

/-- A server answering every batch with `c5Prediction`. -/
def c5Server : List ℕ → BatchResponse := fun _ => .json (some [c5Prediction]) none

/-- The entry the dispatcher stores for `c5Prediction` at threshold 30. -/
def c5Stored : FormattedPrediction :=
  ⟨[mkRat 35 100, mkRat 9 10], [2, 3],
   [(0, 0, mkRat 1 2, mkRat 1 2), (mkRat 1 2, mkRat 1 2, 1, 1)]⟩

/-- Per-chip model outputs where only chip 2 bears a detection. -/
def c6Preds : ℕ → Prediction := fun j =>
  if j = 2 then ⟨[mkRat 9 10], [1], [(0, 0, 0, 0)]⟩ else ⟨[], [], []⟩

/-- Detection entry used for chip 0 in the untiler counterexample. -/
def c3Entry0 : FormattedPrediction := ⟨[mkRat 1 2], [1], [(0, 0, 0, 0)]⟩

/-- Detection entry used for chip 1 in the untiler counterexample. -/
def c3Entry1 : FormattedPrediction := ⟨[mkRat 3 4], [2], [(0, 0, 0, 0)]⟩

/-- A detection map whose keys were inserted in descending order. -/
def c3Results : List (ℕ × FormattedPrediction) := [(1, c3Entry1), (0, c3Entry0)]

/-- TopLeft array covering chip indices 0 and 1. -/
def c3TopLefts : List (ℕ × ℕ) := [(0, 0), (10, 0)]

/-! ## Arithmetic facts about `ceil_div` -/

theorem le_mul_ceil_div {a b : ℕ} (hb : 0 < b) : a ≤ b * ceil_div a b := by
  have h1 := Nat.div_add_mod (a + b - 1) b
  have h2 := Nat.mod_lt (a + b - 1) hb
  unfold ceil_div
  set q := (a + b - 1) / b with hq
  set m := b * q with hm
  omega

theorem mul_ceil_div_lt {a b : ℕ} (hb : 0 < b) : b * ceil_div a b < a + b := by
  have h1 := Nat.div_add_mod (a + b - 1) b
  have h2 := Nat.mod_lt (a + b - 1) hb
  unfold ceil_div
  set q := (a + b - 1) / b with hq
  set m := b * q with hm
  omega

theorem ceil_div_pos {a b : ℕ} (ha : 0 < a) (hb : 0 < b) : 0 < ceil_div a b := by
  rcases Nat.eq_zero_or_pos (ceil_div a b) with h | h
  · have := le_mul_ceil_div (a := a) hb
    rw [h, Nat.mul_zero] at this
    omega
  · exact h

theorem ceil_div_one (a : ℕ) : ceil_div a 1 = a := by
  unfold ceil_div
  omega

theorem ceil_div_of_dvd {a b : ℕ} (hb : 0 < b) (hd : b ∣ a) :
    ceil_div a b = a / b := by
  obtain ⟨k, rfl⟩ := hd
  unfold ceil_div
  rw [show b * k + b - 1 = b * k + (b - 1) by omega]
  rw [Nat.mul_add_div hb, Nat.div_eq_of_lt (by omega),
    Nat.mul_div_cancel_left k hb, Nat.add_zero]

theorem ceil_div_cast_eq_ceil {a b : ℕ} (hb : 0 < b) :
    (ceil_div a b : ℤ) = ⌈(a : ℚ) / (b : ℚ)⌉ := by
  have h1 := le_mul_ceil_div (a := a) hb
  have h2 := mul_ceil_div_lt (a := a) hb
  have hbq : (0 : ℚ) < (b : ℚ) := by exact_mod_cast hb
  symm
  rw [Int.ceil_eq_iff]
  constructor
  · rw [lt_div_iff₀ hbq]
    have : (b : ℚ) * (ceil_div a b : ℚ) < (a : ℚ) + (b : ℚ) := by
      exact_mod_cast h2
    push_cast
    nlinarith
  · rw [div_le_iff₀ hbq]
    have : (a : ℚ) ≤ (b : ℚ) * (ceil_div a b : ℚ) := by exact_mod_cast h1
    push_cast
    nlinarith

/-! ## Padding facts -/

theorem padded_height_eq (img : Raster) {th : ℕ} (hth : 0 < th) :
    padded_height img th = th * num_height_tiles img th :=
  Nat.add_sub_cancel' (le_mul_ceil_div hth)

theorem padded_width_eq (img : Raster) {tw : ℕ} (htw : 0 < tw) :
    padded_width img tw = tw * num_width_tiles img tw :=
  Nat.add_sub_cancel' (le_mul_ceil_div htw)

/-! ## The reshape/swapaxes chipping transform -/

theorem flat_padded_decompose (img : Raster) {tw : ℕ} (ndv : ℕ)
    {Y X f : ℕ} (hX : X < padded_width img tw) (hf : f < img.channels) :
    flat_padded img tw ndv
      ((Y * padded_width img tw + X) * img.channels + f) =
      padded_image img ndv Y X f := by
  have hC : 0 < img.channels := lt_of_le_of_lt (Nat.zero_le f) hf
  have hPW : 0 < padded_width img tw := lt_of_le_of_lt (Nat.zero_le X) hX
  have hK : (Y * padded_width img tw + X) * img.channels + f
      = img.channels * (Y * padded_width img tw + X) + f := by ring
  have hmod : ((Y * padded_width img tw + X) * img.channels + f) % img.channels
      = f := by rw [hK, Nat.mul_add_mod, Nat.mod_eq_of_lt hf]
  have hdiv : ((Y * padded_width img tw + X) * img.channels + f) / img.channels
      = Y * padded_width img tw + X := by
    rw [hK, Nat.mul_add_div hC, Nat.div_eq_of_lt hf, Nat.add_zero]
  have hM : Y * padded_width img tw + X
      = padded_width img tw * Y + X := by ring
  have hmod2 : (Y * padded_width img tw + X) % padded_width img tw = X := by
    rw [hM, Nat.mul_add_mod, Nat.mod_eq_of_lt hX]
  have hdiv2 : ((Y * padded_width img tw + X) * img.channels + f) /
      (padded_width img tw * img.channels) = Y := by
    rw [Nat.mul_comm (padded_width img tw) img.channels,
      ← Nat.div_div_eq_div_mul, hdiv, hM, Nat.mul_add_div hPW,
      Nat.div_eq_of_lt hX, Nat.add_zero]
  unfold flat_padded
  rw [hdiv2, hdiv, hmod2, hmod]

theorem single_index_array_eq_padded (img : Raster) {th tw : ℕ} (ndv : ℕ)
    {i b e f : ℕ}
    (hi : i < num_height_tiles img th * num_width_tiles img tw)
    (hb : b < th) (he : e < tw) (hf : f < img.channels) :
    single_index_array img th tw ndv i b e f =
      padded_image img ndv ((i / num_width_tiles img tw) * th + b)
        ((i % num_width_tiles img tw) * tw + e) f := by
  have htw : 0 < tw := lt_of_le_of_lt (Nat.zero_le e) he
  have hnw : 0 < num_width_tiles img tw := by
    rcases Nat.eq_zero_or_pos (num_width_tiles img tw) with h | h
    · rw [h, Nat.mul_zero] at hi
      exact absurd hi (Nat.not_lt_zero i)
    · exact h
  have hc : i % num_width_tiles img tw < num_width_tiles img tw :=
    Nat.mod_lt i hnw
  have hPW : padded_width img tw = num_width_tiles img tw * tw := by
    rw [padded_width_eq img htw, Nat.mul_comm]
  have hx : (i % num_width_tiles img tw) * tw + e < padded_width img tw := by
    rw [hPW]
    have h1 : (i % num_width_tiles img tw) * tw + e
        < (i % num_width_tiles img tw + 1) * tw := by
      rw [Nat.add_mul, Nat.one_mul]
      omega
    have h2 : (i % num_width_tiles img tw + 1) * tw
        ≤ num_width_tiles img tw * tw := Nat.mul_le_mul_right tw hc
    omega
  have harg : ((((i / num_width_tiles img tw) * th + b) *
        num_width_tiles img tw + i % num_width_tiles img tw) * tw + e) *
        img.channels + f
      = (((i / num_width_tiles img tw) * th + b) * padded_width img tw
        + ((i % num_width_tiles img tw) * tw + e)) * img.channels + f := by
    rw [hPW]
    ring
  unfold single_index_array swapped_array tiled_array
  rw [harg]
  exact flat_padded_decompose img ndv hx hf

/-! ## The TopLeft array -/

theorem tl_block_eq (m n th tw : ℕ) :
    (((List.range m).map (· * th)).map fun t =>
        ((List.range n).map (· * tw)).map fun l => (t, l)).flatten
      = (List.range (m * n)).map fun i => (i / n * th, i % n * tw) := by
  induction m with
  | zero => simp
  | succ m ih =>
    rw [List.range_succ, List.map_append, List.map_append,
      List.flatten_append, ih]
    rw [show (m + 1) * n = m * n + n by ring, List.range_add, List.map_append]
    congr 1
    simp only [List.map_map, List.map_cons, List.map_nil,
      List.flatten_cons, List.flatten_nil, List.append_nil]
    apply List.map_congr_left
    intro j hj
    rw [List.mem_range] at hj
    have hn : 0 < n := lt_of_le_of_lt (Nat.zero_le j) hj
    simp only [Function.comp_apply]
    rw [Nat.mul_comm m n, Nat.mul_add_div hn, Nat.div_eq_of_lt hj,
      Nat.add_zero, Nat.mul_add_mod, Nat.mod_eq_of_lt hj]

theorem tl_pairs_eq (img : Raster) (th tw : ℕ) :
    tl_pairs img th tw =
      (List.range (num_height_tiles img th * num_width_tiles img tw)).map
        fun i => (i / num_width_tiles img tw * th,
                  i % num_width_tiles img tw * tw) := by
  unfold tl_pairs tops lefts
  exact tl_block_eq _ _ _ _

theorem tl_pairs_length (img : Raster) (th tw : ℕ) :
    (tl_pairs img th tw).length =
      num_height_tiles img th * num_width_tiles img tw := by
  rw [tl_pairs_eq]
  simp

theorem tl_pairs_getD (img : Raster) (th tw : ℕ) {i : ℕ}
    (hi : i < num_height_tiles img th * num_width_tiles img tw) :
    (tl_pairs img th tw).getD i (0, 0) =
      (i / num_width_tiles img tw * th, i % num_width_tiles img tw * tw) := by
  rw [tl_pairs_eq, List.getD_eq_getElem?_getD]
  simp [List.getElem?_map, List.getElem?_range, hi]

/-! ## The chip array -/

theorem chipList_length (img : Raster) (th tw ndv : ℕ) :
    (chipList img th tw ndv).length =
      num_height_tiles img th * num_width_tiles img tw := by
  unfold chipList
  simp

theorem chipList_shape (img : Raster) (th tw ndv : ℕ) :
    ∀ chip ∈ chipList img th tw ndv, chip.length = th ∧
      ∀ row ∈ chip, row.length = tw ∧
        ∀ px ∈ row, px.length = img.channels := by
  intro chip hc
  unfold chipList at hc
  rw [List.mem_map] at hc
  obtain ⟨i, _, rfl⟩ := hc
  refine ⟨by simp, ?_⟩
  intro row hr
  rw [List.mem_map] at hr
  obtain ⟨b, _, rfl⟩ := hr
  refine ⟨by simp, ?_⟩
  intro px hp
  rw [List.mem_map] at hp
  obtain ⟨e, _, rfl⟩ := hp
  simp

theorem chipList_getD (img : Raster) (th tw ndv : ℕ) {i b e f : ℕ}
    (hi : i < num_height_tiles img th * num_width_tiles img tw)
    (hb : b < th) (he : e < tw) (hf : f < img.channels) :
    ((((chipList img th tw ndv).getD i []).getD b []).getD e []).getD f 0
      = single_index_array img th tw ndv i b e f := by
  unfold chipList
  simp [List.getD_eq_getElem?_getD, List.getElem?_map, List.getElem?_range,
    hi, hb, he, hf]

/-! ## The chip extents tile the padded image -/

theorem cover_exists_unique (img : Raster) {th tw : ℕ}
    (hth : 0 < th) (htw : 0 < tw) {y x : ℕ}
    (hy : y < padded_height img th) (hx : x < padded_width img tw) :
    ∃! i, i < num_height_tiles img th * num_width_tiles img tw ∧
      i / num_width_tiles img tw * th ≤ y ∧
      y < i / num_width_tiles img tw * th + th ∧
      i % num_width_tiles img tw * tw ≤ x ∧
      x < i % num_width_tiles img tw * tw + tw := by
  have hyn : y / th < num_height_tiles img th := by
    rw [padded_height_eq img hth, Nat.mul_comm] at hy
    exact (Nat.div_lt_iff_lt_mul hth).mpr hy
  have hxn : x / tw < num_width_tiles img tw := by
    rw [padded_width_eq img htw, Nat.mul_comm] at hx
    exact (Nat.div_lt_iff_lt_mul htw).mpr hx
  have hnw : 0 < num_width_tiles img tw :=
    lt_of_le_of_lt (Nat.zero_le (x / tw)) hxn
  have hdiv : (y / th * num_width_tiles img tw + x / tw) /
      num_width_tiles img tw = y / th := by
    rw [show y / th * num_width_tiles img tw + x / tw
        = num_width_tiles img tw * (y / th) + x / tw by ring,
      Nat.mul_add_div hnw, Nat.div_eq_of_lt hxn, Nat.add_zero]
  have hmod : (y / th * num_width_tiles img tw + x / tw) %
      num_width_tiles img tw = x / tw := by
    rw [show y / th * num_width_tiles img tw + x / tw
        = num_width_tiles img tw * (y / th) + x / tw by ring,
      Nat.mul_add_mod, Nat.mod_eq_of_lt hxn]
  have hybounds := Nat.div_add_mod' y th
  have hymod := Nat.mod_lt y hth
  have hxbounds := Nat.div_add_mod' x tw
  have hxmod := Nat.mod_lt x htw
  refine ⟨y / th * num_width_tiles img tw + x / tw, ⟨?_, ?_, ?_, ?_, ?_⟩, ?_⟩
  · have h1 : y / th * num_width_tiles img tw + x / tw
        < (y / th + 1) * num_width_tiles img tw := by
      rw [Nat.add_mul, Nat.one_mul]
      omega
    have h2 : (y / th + 1) * num_width_tiles img tw
        ≤ num_height_tiles img th * num_width_tiles img tw :=
      Nat.mul_le_mul_right _ hyn
    omega
  · rw [hdiv]
    omega
  · rw [hdiv]
    omega
  · rw [hmod]
    omega
  · rw [hmod]
    omega
  · intro j hj
    obtain ⟨hjlt, hj1, hj2, hj3, hj4⟩ := hj
    have hja : y / th = j / num_width_tiles img tw := by
      have hle : j / num_width_tiles img tw ≤ y / th :=
        Nat.le_div_iff_mul_le hth |>.mpr hj1
      have hlt : y / th < j / num_width_tiles img tw + 1 := by
        apply (Nat.div_lt_iff_lt_mul hth).mpr
        rw [Nat.add_mul, Nat.one_mul]
        omega
      omega
    have hjc : x / tw = j % num_width_tiles img tw := by
      have hle : j % num_width_tiles img tw ≤ x / tw :=
        Nat.le_div_iff_mul_le htw |>.mpr hj3
      have hlt : x / tw < j % num_width_tiles img tw + 1 := by
        apply (Nat.div_lt_iff_lt_mul htw).mpr
        rw [Nat.add_mul, Nat.one_mul]
        omega
      omega
    have hj5 := Nat.div_add_mod j (num_width_tiles img tw)
    rw [← hja, ← hjc] at hj5
    rw [show y / th * num_width_tiles img tw + x / tw
        = num_width_tiles img tw * (y / th) + x / tw by ring]
    omega

/-! ## Claim C2: the Tiler produces a correct chip grid -/

/-- Claim C2: for every 3-dimensional raster and every positive tile size
(h, w), `chip_geo_image` without thinning produces exactly
`ceil(H/h) * ceil(W/w)` chips, each of shape (h, w, C); the chip with
linear index `i = row * num_w + col` equals the padded-image slice of
extent (h, w) starting at `TopLeft i = (row * h, col * w)` (row-major by
tile), and the chip extents tile the padded image with no gaps or
overlaps. -/
theorem chip_grid_correct (img : Raster) (th tw ndv : ℕ)
    (hth : 0 < th) (htw : 0 < tw) : TilerClaim img th tw ndv := by
  refine ⟨?_, chipList_shape img th tw ndv, tl_pairs_length img th tw,
    fun i hi => tl_pairs_getD img th tw hi,
    fun i b e f hi hb he hf => chipList_getD img th tw ndv hi hb he hf,
    fun i b e f hi hb he hf =>
      single_index_array_eq_padded img ndv hi hb he hf,
    fun y x hy hx => cover_exists_unique img hth htw hy hx⟩
  rw [chipList_length]
  have h1 := ceil_div_cast_eq_ceil (a := img.height) hth
  have h2 := ceil_div_cast_eq_ceil (a := img.width) htw
  unfold num_height_tiles num_width_tiles
  rw [← h1, ← h2]
  rw [show (ceil_div img.height th : ℤ) * (ceil_div img.width tw : ℤ)
      = ((ceil_div img.height th * ceil_div img.width tw : ℕ) : ℤ) by
    push_cast
    ring]
  rw [Int.toNat_natCast]

/-- Witness for `chip_grid_correct` at a concrete raster and tile size. -/
theorem chip_grid_correct_witness :
    (0 : ℕ) < 2 ∧ (0 : ℕ) < 2 ∧ TilerClaim exRaster 2 2 0 :=
  ⟨by decide, by decide,
    chip_grid_correct exRaster 2 2 0 (by decide) (by decide)⟩

/-! ## Claim C7: padding only on the bottom/right edge -/

/-- Claim C7: `chip_geo_image` pads only on the bottom and right edges
with the constant sentinel, so every original pixel keeps its coordinates
in the padded image; for a raster whose dimensions the tile size divides
exactly, zero rows and columns of padding are added and the chip count is
exactly `(H/h) * (W/w)`. -/
theorem padding_bottom_right (img : Raster) (ndv th tw : ℕ)
    (hth : 0 < th) (htw : 0 < tw) : PaddingClaim img ndv th tw := by
  refine ⟨?_, ?_, ?_⟩
  · intro y x c hy hx
    unfold padded_image np_pad
    rw [if_pos ⟨Nat.zero_le y, by omega, Nat.zero_le x, by omega⟩]
    simp
  · intro y x c h
    unfold padded_image np_pad
    rw [if_neg (by omega)]
  · intro hdh hdw
    have e1 : num_height_tiles img th = img.height / th :=
      ceil_div_of_dvd hth hdh
    have e2 : num_width_tiles img tw = img.width / tw :=
      ceil_div_of_dvd htw hdw
    have e3 : th * (img.height / th) = img.height := Nat.mul_div_cancel' hdh
    have e4 : tw * (img.width / tw) = img.width := Nat.mul_div_cancel' hdw
    refine ⟨?_, ?_, ?_⟩
    · unfold height_pad
      rw [e1, e3]
      omega
    · unfold width_pad
      rw [e2, e4]
      omega
    · rw [chipList_length, e1, e2]

/-- Witness for `padding_bottom_right`: tile size (1, 2) divides the
3 × 4 raster evenly. -/
theorem padding_bottom_right_witness :
    (0 : ℕ) < 1 ∧ (0 : ℕ) < 2 ∧
      PaddingClaim ⟨3, 4, 1, fun y x c => y + x + c⟩ 0 1 2 :=
  ⟨by decide, by decide,
    padding_bottom_right ⟨3, 4, 1, fun y x c => y + x + c⟩ 0 1 2
      (by decide) (by decide)⟩

/-! ## Claim C9: the failure modes of the Tiler -/

/-- Claim C9 (a code bug): a non-positive tile dimension aborts the Tiler
before any chip is produced, and the in-memory modes succeed on
well-formed inputs — but on-disk mode with thinning disabled raises
`UnboundLocalError` (line 277 reads `idxs_to_delete`, which is assigned
only inside the thinning branch), a failure mode the claim rules out. -/
theorem tiler_failure_modes :
    (chip_geo_image exRaster 0 2 0 false false).isOk = false ∧
    (chip_geo_image exRaster 2 0 0 false false).isOk = false ∧
    (chip_geo_image exRaster (-1) 2 0 false false).isOk = false ∧
    (chip_geo_image exRaster 2 (-3) 0 false false).isOk = false ∧
    (chip_geo_image exRaster 2 2 0 false false).isOk = true ∧
    (chip_geo_image exRaster 2 2 0 true false).isOk = true ∧
    (chip_geo_image exRaster 2 2 0 true true).isOk = true ∧
    chip_geo_image exRaster 2 2 0 false true =
      .error "UnboundLocalError: local variable idxs_to_delete referenced before assignment" := by
  decide

/-! ## The blank-chip filter -/

theorem array_equal_const_iff (chip : List (List (List ℕ))) (v : ℕ) :
    array_equal_const chip v = true ↔ ∀ s ∈ chipSamples chip, s = v := by
  unfold array_equal_const chipSamples
  simp only [List.all_eq_true, beq_iff_eq, List.mem_flatten]
  constructor
  · intro h s hs
    obtain ⟨px, ⟨row, hrow, hpx⟩, hs⟩ := hs
    exact h row hrow px hpx s hs
  · intro h row hrow px hpx s hs
    exact h s ⟨px, ⟨row, hrow, hpx⟩, hs⟩

theorem ndv_check_iff (max_value : ℕ) (chip : List (List (List ℕ))) :
    ndv_check max_value chip = true ↔
      ((∀ s ∈ chipSamples chip, s = max_value) ∨
       (∀ s ∈ chipSamples chip, s = 0)) := by
  unfold ndv_check
  rw [Bool.or_eq_true, array_equal_const_iff, array_equal_const_iff]

theorem mem_replicate3 {n m k v s : ℕ}
    (hs : s ∈ chipSamples
      (List.replicate n (List.replicate m (List.replicate k v)))) : s = v := by
  unfold chipSamples at hs
  rw [List.mem_flatten] at hs
  obtain ⟨px, hpx, hs⟩ := hs
  rw [List.mem_flatten] at hpx
  obtain ⟨row, hrow, hpx⟩ := hpx
  have h1 := List.eq_of_mem_replicate hrow
  subst h1
  have h2 := List.eq_of_mem_replicate hpx
  subst h2
  exact List.eq_of_mem_replicate hs

theorem ndv_check_false_of_mixed (max_value : ℕ)
    (chip : List (List (List ℕ)))
    (h0 : ∃ s ∈ chipSamples chip, s ≠ 0)
    (hm : ∃ s ∈ chipSamples chip, s ≠ max_value) :
    ndv_check max_value chip = false := by
  rw [Bool.eq_false_iff]
  intro htrue
  rw [ndv_check_iff] at htrue
  obtain ⟨s1, hs1, h1⟩ := h0
  obtain ⟨s2, hs2, h2⟩ := hm
  rcases htrue with h | h
  · exact h2 (h s2 hs2)
  · exact h1 (h s1 hs1)

theorem zip_self_filter {α : Type} (g : α → Bool) :
    ∀ xs : List α,
      ((xs.zip xs).filter fun q => g q.1).map (fun q => q.2) = xs.filter g := by
  intro xs
  induction xs with
  | nil => rfl
  | cons a xs ih =>
    rw [List.zip_cons_cons, List.filter_cons, List.filter_cons]
    cases hg : g a <;> simp [hg, ih]

theorem np_delete_mask {α β : Type} (d : α) (p : α → Bool) :
    ∀ (xs : List α) (ys : List β), ys.length = xs.length →
      np_delete ys ((List.range xs.length).filter fun i => p (xs.getD i d)) =
        ((xs.zip ys).filter fun q => !(p q.1)).map (fun q => q.2) := by
  intro xs
  induction xs with
  | nil =>
    intro ys h
    have : ys = [] := List.eq_nil_of_length_eq_zero h
    subst this
    rfl
  | cons a xs ih =>
    intro ys h
    cases ys with
    | nil => simp at h
    | cons b ys =>
      have hlen : ys.length = xs.length := by simpa using h
      have hcomp : ((fun i => p ((a :: xs).getD i d)) ∘ Nat.succ)
          = fun i => p (xs.getD i d) := by
        funext i
        simp [List.getD]
      have hidx : (List.range (a :: xs).length).filter
            (fun i => p ((a :: xs).getD i d)) =
          (if p a then [0] else []) ++
            (((List.range xs.length).filter fun i => p (xs.getD i d)).map
              Nat.succ) := by
        rw [List.length_cons, List.range_succ_eq_map, List.filter_cons,
          List.filter_map, hcomp]
        cases hpa : p a <;> simp [List.getD, hpa]
      rw [hidx]
      unfold np_delete
      rw [List.length_cons, List.range_succ_eq_map, List.filterMap_cons,
        List.filterMap_map]
      have hhead : (if ((if p a then [0] else []) ++
            (((List.range xs.length).filter fun i =>
              p (xs.getD i d)).map Nat.succ)).contains 0
          then (none : Option β) else (b :: ys)[0]?) =
          if p a then none else some b := by
        cases hpa : p a <;> simp [hpa, List.getElem?_cons_zero]
      have htail : ((fun i => if ((if p a then [0] else []) ++
            (((List.range xs.length).filter fun i =>
              p (xs.getD i d)).map Nat.succ)).contains i
          then (none : Option β) else (b :: ys)[i]?) ∘ Nat.succ) =
          fun i => if (((List.range xs.length).filter fun i =>
              p (xs.getD i d))).contains i
            then (none : Option β) else ys[i]? := by
        funext i
        have hmem : (((if p a then [0] else []) ++
            (((List.range xs.length).filter fun i =>
              p (xs.getD i d)).map Nat.succ)).contains (i + 1)) =
            (((List.range xs.length).filter fun i =>
              p (xs.getD i d)).contains i) := by
          rw [Bool.eq_iff_iff]
          cases hpa : p a <;>
            simp [List.mem_map, Nat.succ_ne_zero]
        simp only [Function.comp_apply, hmem, List.getElem?_cons_succ]
      rw [htail]
      have hrec : (List.range ys.length).filterMap
          (fun i => if (((List.range xs.length).filter fun i =>
              p (xs.getD i d))).contains i
            then (none : Option β) else ys[i]?) = np_delete ys
          ((List.range xs.length).filter fun i => p (xs.getD i d)) := rfl
      rw [hrec, ih ys hlen]
      cases hpa : p a
      · rw [hpa] at hhead
        rw [hhead]
        simp [hpa]
      · rw [hpa] at hhead
        rw [hhead]
        simp [hpa]

/-! ## Claim C8: blank-chip classification and thinning -/

/-- Claim C8 as stated is false: in the chip `[[[0, 255]]]` every sample
equals either 0 or the dtype maximum 255, yet `ndv_check` does not flag it
blank — the code flags a chip only when all samples equal 0 or all equal
255. -/
theorem blank_filter_counterexample :
    (∀ s ∈ chipSamples [[[0, 255]]], s = 0 ∨ s = 255) ∧
    ndv_check 255 [[[0, 255]]] = false :=
  ⟨by decide, by decide⟩

/-- Claim C8 (amended): a chip is blank iff all of its samples equal the
dtype maximum or all equal 0; a constant chip of either value is blank; a
chip holding both a non-zero and a non-max sample is not; when thinning is
enabled, chips and TopLefts are filtered with the same index mask,
preserving the relative order of the survivors. -/
theorem blank_filter_correct (max_value : ℕ)
    (chips : List (List (List (List ℕ)))) (tl : List (ℕ × ℕ))
    (hlen : tl.length = chips.length) : BlankThinClaim max_value chips tl := by
  refine ⟨ndv_check_iff max_value, ?_,
    ndv_check_false_of_mixed max_value, ?_, ?_⟩
  · intro n m k
    constructor
    · rw [ndv_check_iff]
      right
      intro s hs
      exact mem_replicate3 hs
    · rw [ndv_check_iff]
      left
      intro s hs
      exact mem_replicate3 hs
  · unfold idxs_to_delete
    rw [np_delete_mask [] (ndv_check max_value) chips chips rfl]
    exact zip_self_filter (fun c => !(ndv_check max_value c)) chips
  · unfold idxs_to_delete
    rw [np_delete_mask [] (ndv_check max_value) chips tl hlen]

/-- Witness for `blank_filter_correct`: one all-zero chip and one valid
chip, with their TopLefts. -/
theorem blank_filter_correct_witness :
    ([(0, 0), (2, 0)] : List (ℕ × ℕ)).length =
        ([[[[0]]], [[[7]]]] : List (List (List (List ℕ)))).length ∧
      BlankThinClaim 255 [[[[0]]], [[[7]]]] [(0, 0), (2, 0)] :=
  ⟨by decide,
    blank_filter_correct 255 [[[[0]]], [[[7]]]] [(0, 0), (2, 0)] (by decide)⟩

/-! ## The dispatcher: boolean-mask filtering -/

theorem mask_filterMap_eq_filter {α : Type} (p : α → Bool) :
    ∀ xs : List α,
      ((xs.map p).zip xs).filterMap (fun q => if q.1 then some q.2 else none)
        = xs.filter p := by
  intro xs
  induction xs with
  | nil => rfl
  | cons a xs ih =>
    simp only [List.map_cons, List.zip_cons_cons, List.filterMap_cons,
      List.filter_cons]
    cases hpa : p a <;> simp [hpa, ih]

theorem np_bool_mask_map {α β : Type} (p : α → Bool) :
    ∀ (xs : List α) (ys : List β), ys.length = xs.length →
      np_bool_mask (xs.map p) ys =
        some (((xs.zip ys).filter fun q => p q.1).map (fun q => q.2)) := by
  intro xs
  induction xs with
  | nil =>
    intro ys h
    have : ys = [] := List.eq_nil_of_length_eq_zero h
    subst this
    rfl
  | cons a xs ih =>
    intro ys h
    cases ys with
    | nil => simp at h
    | cons b ys =>
      have hlen : ys.length = xs.length := by simpa using h
      have hinner : ((xs.map p).zip ys).filterMap
          (fun q => if q.1 then some q.2 else none) =
          ((xs.zip ys).filter fun q => p q.1).map (fun q => q.2) := by
        have h2 := ih ys hlen
        unfold np_bool_mask at h2
        rw [if_pos (by simp [hlen])] at h2
        exact Option.some.inj h2
      unfold np_bool_mask
      rw [if_pos (by simp [hlen])]
      simp only [List.map_cons, List.zip_cons_cons, List.filterMap_cons,
        List.filter_cons]
      cases hpa : p a <;> simp [hpa, hinner]

theorem filterMap_mask_length {β : Type} :
    ∀ (mask : List Bool) (ys : List β), mask.length = ys.length →
      ((mask.zip ys).filterMap fun q => if q.1 then some q.2 else none).length
        = (mask.filter id).length := by
  intro mask
  induction mask with
  | nil => intro ys h; rfl
  | cons mv mask ih =>
    intro ys h
    cases ys with
    | nil => simp at h
    | cons b ys =>
      have hlen : mask.length = ys.length := by simpa using h
      rw [List.zip_cons_cons, List.filterMap_cons, List.filter_cons]
      cases mv <;> simp [ih ys hlen]

theorem np_bool_mask_some {β : Type} {mask : List Bool} {ys zs : List β}
    (h : np_bool_mask mask ys = some zs) :
    mask.length = ys.length ∧
      zs = (mask.zip ys).filterMap fun q => if q.1 then some q.2 else none := by
  unfold np_bool_mask at h
  split at h
  · exact ⟨by assumption, (Option.some.inj h).symm⟩
  · cases h

/-! ## The dispatcher: the per-chip threshold filter -/

theorem format_prediction_eq (t : ℚ) (cats : Prediction)
    (hc : cats.detection_classes.length = cats.detection_scores.length)
    (hb : cats.detection_boxes.length = cats.detection_scores.length) :
    format_prediction t cats =
      if (cats.detection_scores.filter (keep t)).isEmpty then .ok none
      else .ok (some ⟨cats.detection_scores.filter (keep t),
        ((cats.detection_scores.zip cats.detection_classes).filter fun q =>
          keep t q.1).map (fun q => q.2),
        ((cats.detection_scores.zip cats.detection_boxes).filter fun q =>
          keep t q.1).map (fun q => q.2)⟩) := by
  unfold keep
  simp only [format_prediction]
  rw [mask_filterMap_eq_filter (fun s => decide (t ≤ s)) cats.detection_scores]
  rw [np_bool_mask_map (fun s => decide (t ≤ s)) cats.detection_scores
      cats.detection_classes hc,
    np_bool_mask_map (fun s => decide (t ≤ s)) cats.detection_scores
      cats.detection_boxes hb]
  cases hfil : cats.detection_scores.filter (fun s => decide (t ≤ s)) with
  | nil => simp [hfil]
  | cons s0 srest => simp [hfil]

theorem format_prediction_invariant (t : ℚ) (cats : Prediction)
    {fp : FormattedPrediction}
    (h : format_prediction t cats = .ok (some fp)) :
    fp.detection_scores.length = fp.detection_classes.length ∧
    fp.detection_scores.length = fp.detection_boxes.length ∧
    0 < fp.detection_scores.length ∧
    ∀ s ∈ fp.detection_scores, t ≤ s := by
  simp only [format_prediction] at h
  split at h
  · rename_i hpos
    split at h
    · rename_i filtered_classes filtered_bboxes hcls hbox
      have hfp : (⟨((cats.detection_scores.map fun s => decide (t ≤ s)).zip
            cats.detection_scores).filterMap
              (fun q => if q.1 then some q.2 else none),
          filtered_classes, filtered_bboxes⟩ : FormattedPrediction) = fp := by
        have := h
        simp only [Except.ok.injEq, Option.some.injEq] at this
        exact this
      subst hfp
      obtain ⟨hcl1, hcl2⟩ := np_bool_mask_some hcls
      obtain ⟨hbl1, hbl2⟩ := np_bool_mask_some hbox
      refine ⟨?_, ?_, hpos, ?_⟩
      · rw [hcl2, filterMap_mask_length _ _ (by simp),
          filterMap_mask_length _ _ hcl1]
      · rw [hbl2, filterMap_mask_length _ _ (by simp),
          filterMap_mask_length _ _ hbl1]
      · intro s hs
        rw [mask_filterMap_eq_filter (fun s => decide (t ≤ s))
          cats.detection_scores] at hs
        rw [List.mem_filter] at hs
        exact of_decide_eq_true hs.2
    · cases h
  · cases h

/-! ## The dispatcher: `_async_post` -/

theorem benign_async (t : ℚ) (r : BatchResponse) (h : benign r = true) :
    ∃ o, async_post t r = .ok o := by
  cases r with
  | netError => simp [benign] at h
  | badJson => simp [benign] at h
  | json preds err =>
    cases preds with
    | none =>
      cases err with
      | none => simp [benign] at h
      | some e => exact ⟨none, rfl⟩
    | some l =>
      cases l with
      | nil => simp [benign] at h
      | cons cats rest =>
        simp only [benign, predWf, Bool.and_eq_true, beq_iff_eq] at h
        obtain ⟨h1, h2⟩ := h
        show ∃ o, format_prediction t cats = .ok o
        rw [format_prediction_eq t cats h1 h2]
        by_cases hemp : (cats.detection_scores.filter (keep t)).isEmpty
        · rw [if_pos hemp]
          exact ⟨none, rfl⟩
        · rw [if_neg hemp]
          exact ⟨some _, rfl⟩

theorem async_post_ok_some (t : ℚ) (r : BatchResponse)
    {fp : FormattedPrediction} (h : async_post t r = .ok (some fp)) :
    fp.detection_scores.length = fp.detection_classes.length ∧
    fp.detection_scores.length = fp.detection_boxes.length ∧
    0 < fp.detection_scores.length ∧
    ∀ s ∈ fp.detection_scores, t ≤ s := by
  cases r with
  | netError => cases h
  | badJson => cases h
  | json preds err =>
    cases preds with
    | none =>
      cases err with
      | none => cases h
      | some e => simp [async_post] at h
    | some l =>
      cases l with
      | nil => cases h
      | cons cats rest => exact format_prediction_invariant t cats h

/-! ## The dispatcher: `asyncio.gather` semantics -/

theorem gather_results_mem (t : ℚ) :
    ∀ (rs : List BatchResponse) (k : ℕ) (m : List (ℕ × FormattedPrediction)),
      gather_results t k rs = .ok m →
      ∀ i fp, ((i, fp) ∈ m ↔ ∃ j, ∃ hj : j < rs.length, i = k + j ∧
        async_post t rs[j] = .ok (some fp)) := by
  intro rs
  induction rs with
  | nil =>
    intro k m h i fp
    simp only [gather_results] at h
    injection h with h
    subst h
    simp
  | cons r rs ih =>
    intro k m h i fp
    simp only [gather_results] at h
    cases har : async_post t r with
    | error e => rw [har] at h; cases h
    | ok o =>
      rw [har] at h
      cases hrec : gather_results t (k + 1) rs with
      | error e =>
        rw [hrec] at h
        cases o <;> cases h
      | ok m' =>
        rw [hrec] at h
        have ihm := ih (k + 1) m' hrec
        cases o with
        | none =>
          have hm : m' = m := by cases h; rfl
          subst hm
          rw [ihm i fp]
          constructor
          · rintro ⟨j, hj, rfl, hap⟩
            refine ⟨j + 1, Nat.succ_lt_succ hj, by omega, ?_⟩
            simpa using hap
          · rintro ⟨j, hj, rfl, hap⟩
            cases j with
            | zero =>
              simp only [List.getElem_cons_zero] at hap
              rw [har] at hap
              cases hap
            | succ j =>
              have hj' : j < rs.length := by
                simp only [List.length_cons] at hj
                omega
              refine ⟨j, hj', by omega, ?_⟩
              simpa using hap
        | some fp0 =>
          have hm : (k, fp0) :: m' = m := by cases h; rfl
          subst hm
          rw [List.mem_cons, ihm i fp]
          constructor
          · rintro (heq | ⟨j, hj, rfl, hap⟩)
            · injection heq with hi hfp
              subst hi
              subst hfp
              have h1 : (0 : ℕ) < (r :: rs).length := by simp
              refine ⟨0, h1, by omega, ?_⟩
              simpa using har
            · refine ⟨j + 1, Nat.succ_lt_succ hj, by omega, ?_⟩
              simpa using hap
          · rintro ⟨j, hj, rfl, hap⟩
            cases j with
            | zero =>
              simp only [List.getElem_cons_zero] at hap
              rw [har] at hap
              have : fp0 = fp := by
                simp only [Except.ok.injEq, Option.some.injEq] at hap
                exact hap
              subst this
              exact Or.inl (by simp)
            | succ j =>
              right
              have hj' : j < rs.length := by
                simp only [List.length_cons] at hj
                omega
              refine ⟨j, hj', by omega, ?_⟩
              simpa using hap

theorem gather_results_ok_of_benign (t : ℚ) :
    ∀ (rs : List BatchResponse) (k : ℕ), (∀ r ∈ rs, benign r = true) →
      ∃ m, gather_results t k rs = .ok m := by
  intro rs
  induction rs with
  | nil => exact fun k _ => ⟨[], rfl⟩
  | cons r rs ih =>
    intro k h
    have hr : benign r = true := h r (List.mem_cons_self r rs)
    have hrs : ∀ x ∈ rs, benign x = true := fun x hx =>
      h x (List.mem_cons_of_mem r hx)
    obtain ⟨m', hm'⟩ := ih (k + 1) hrs
    obtain ⟨o, ho⟩ := benign_async t r hr
    cases o with
    | none =>
      refine ⟨m', ?_⟩
      simp only [gather_results]
      rw [ho, hm']
    | some fp =>
      refine ⟨(k, fp) :: m', ?_⟩
      simp only [gather_results]
      rw [ho, hm']

theorem gather_results_not_ok_of_mem_error (t : ℚ) :
    ∀ (rs : List BatchResponse) (k : ℕ) (r : BatchResponse) (e : String),
      r ∈ rs → async_post t r = .error e →
      ∀ m, gather_results t k rs ≠ .ok m := by
  intro rs
  induction rs with
  | nil =>
    intro k r e hmem
    cases hmem
  | cons r0 rs ih =>
    intro k r e hmem herr m hok
    simp only [gather_results] at hok
    rcases List.mem_cons.mp hmem with rfl | hmem'
    · rw [herr] at hok
      cases hok
    · cases har : async_post t r0 with
      | error e0 =>
        rw [har] at hok
        cases hok
      | ok o =>
        rw [har] at hok
        cases hrec : gather_results t (k + 1) rs with
        | error e0 =>
          rw [hrec] at hok
          cases o <;> cases hok
        | ok m' => exact ih (k + 1) r e hmem' herr m' hrec

/-! ## `np.array_split` -/

theorem take_chunks_length {α : Type} :
    ∀ (ss : List ℕ) (xs : List α), (take_chunks ss xs).length = ss.length := by
  intro ss
  induction ss with
  | nil => intro xs; rfl
  | cons s ss ih =>
    intro xs
    simp [take_chunks, ih]

theorem split_sizes_length (n q r : ℕ) : (split_sizes n q r).length = n := by
  unfold split_sizes
  simp

theorem split_sizes_sum (q r : ℕ) :
    ∀ n, (split_sizes n q r).sum = n * q + min r n := by
  intro n
  induction n with
  | zero => simp [split_sizes]
  | succ n ih =>
    unfold split_sizes at ih ⊢
    rw [List.range_succ, List.map_append, List.sum_append, ih]
    simp only [List.map_cons, List.map_nil, List.sum_cons, List.sum_nil]
    rw [Nat.succ_mul]
    by_cases hnr : n < r
    · rw [if_pos hnr]
      omega
    · rw [if_neg hnr]
      omega

theorem take_chunks_flatten {α : Type} :
    ∀ (ss : List ℕ) (xs : List α),
      (take_chunks ss xs).flatten = xs.take ss.sum := by
  intro ss
  induction ss with
  | nil =>
    intro xs
    simp [take_chunks]
  | cons s ss ih =>
    intro xs
    simp only [take_chunks, List.flatten_cons, List.sum_cons]
    rw [ih, List.take_add]

theorem np_array_split_length {α : Type} (xs : List α) (n : ℕ) :
    (np_array_split xs n).length = n := by
  unfold np_array_split
  rw [take_chunks_length, split_sizes_length]

theorem np_array_split_flatten {α : Type} (xs : List α) {n : ℕ} (hn : 0 < n) :
    (np_array_split xs n).flatten = xs := by
  unfold np_array_split
  rw [take_chunks_flatten, split_sizes_sum]
  have h1 := Nat.div_add_mod xs.length n
  have h2 := Nat.mod_lt xs.length hn
  rw [min_eq_left (Nat.le_of_lt h2), h1]
  exact List.take_length xs

theorem take_chunks_ones {α : Type} :
    ∀ xs : List α,
      take_chunks (List.replicate xs.length 1) xs = xs.map fun a => [a] := by
  intro xs
  induction xs with
  | nil => rfl
  | cons a xs ih =>
    simp only [List.length_cons, List.replicate_succ, take_chunks,
      List.take_succ_cons, List.take_zero, List.drop_succ_cons,
      List.drop_zero, List.map_cons]
    exact congrArg _ ih

theorem array_split_singletons {α : Type} (xs : List α) (h : 0 < xs.length) :
    np_array_split xs xs.length = xs.map fun a => [a] := by
  unfold np_array_split
  rw [Nat.div_self h, Nat.mod_self]
  have hs : split_sizes xs.length 1 0 = List.replicate xs.length 1 := by
    unfold split_sizes
    have hone : ∀ i ∈ List.range xs.length,
        (if i < 0 then 1 + 1 else 1) = (fun _ => 1) i := by
      intro i _
      simp
    rw [List.map_congr_left hone, List.map_const', List.length_range]
  rw [hs, take_chunks_ones]

theorem batch_inference_pos {α : Type} (server : List α → BatchResponse)
    (instances : List α) (conf : ℚ) (c : ℕ) (hc : c ≠ 0)
    (hn : ceil_div instances.length c ≠ 0) :
    batch_inference server instances conf c =
      gather_results (conf / 100) 0
        ((np_array_split instances (ceil_div instances.length c)).map
          server) := by
  unfold batch_inference
  rw [if_neg hc, if_neg hn]

/-! ## Claim C1: partial-failure tolerance of the dispatcher -/

/-- Claim C1 as stated is false: over two single-chip batches, where the
first succeeds with one detection and the second request raises a network
error, `asyncio.gather` (without `return_exceptions`) re-raises and
`batch_inference` aborts instead of returning the detection map covering
the successful batch. -/
theorem dispatch_tolerance_counterexample :
    batch_inference c1Server [0, 1] 30 1 =
      .error "aiohttp.ClientConnectorError" ∧
    async_post ((30 : ℚ) / 100) (c1Server [0]) =
      .ok (some ⟨[mkRat 9 10], [1], [(0, 0, 0, 0)]⟩) :=
  ⟨by decide, by decide⟩

/-- Claim C1 (amended): when every batch outcome is benign — it either
carries a non-empty, well-formed `"predictions"` array or carries no
`"predictions"` key but an `"error"` key — the dispatch returns normally
with the map of all surviving detections keyed by batch index; but any
batch whose `_async_post` raises (network error, malformed JSON, missing
`"predictions"` and `"error"` keys, empty predictions array, or
mismatched array lengths) makes the whole dispatch raise. -/
theorem dispatch_tolerance (conf : ℚ) (k : ℕ) (rs : List BatchResponse) :
    ((∀ r ∈ rs, benign r = true) → GatherClaim conf k rs)
    ∧ (∀ (r : BatchResponse) (e : String), r ∈ rs →
        async_post conf r = .error e →
        ∀ m, gather_results conf k rs ≠ .ok m) := by
  constructor
  · intro hben
    obtain ⟨m, hm⟩ := gather_results_ok_of_benign conf rs k hben
    exact ⟨m, hm, gather_results_mem conf rs k m hm⟩
  · exact fun r e hmem herr => gather_results_not_ok_of_mem_error conf rs k r e hmem herr

/-- Witness for `dispatch_tolerance`: one successful batch and one batch
whose response has no predictions but an error message. -/
theorem dispatch_tolerance_witness :
    (∀ r ∈ [BatchResponse.json (some [exPrediction]) none,
            BatchResponse.json none (some "no predictions")],
      benign r = true)
    ∧ GatherClaim (mkRat 3 10) 0
        [BatchResponse.json (some [exPrediction]) none,
         BatchResponse.json none (some "no predictions")] :=
  ⟨by decide,
    (dispatch_tolerance (mkRat 3 10) 0
      [BatchResponse.json (some [exPrediction]) none,
       BatchResponse.json none (some "no predictions")]).1 (by decide)⟩

/-! ## Claim C5: the confidence-threshold filter -/

/-- Claim C5: the user percentage is converted to a fraction by dividing
by 100; exactly the detections whose score is at or above the fraction are
kept, classes and boxes filtered by the same mask in the same relative
order; a chip whose detections all fall below threshold contributes
nothing to the map; and scores [0.1, 0.35, 0.9] at threshold 30 keep
exactly the latter two, in order. -/
theorem threshold_filter (conf : ℚ) (cats : Prediction)
    (hc : cats.detection_classes.length = cats.detection_scores.length)
    (hb : cats.detection_boxes.length = cats.detection_scores.length) :
    ThresholdClaim conf cats
    ∧ (∀ (k : ℕ) (r : BatchResponse) (rs : List BatchResponse),
        async_post (conf / 100) r = .ok none →
        gather_results (conf / 100) k (r :: rs) =
          gather_results (conf / 100) (k + 1) rs)
    ∧ batch_inference c5Server [0] 30 1 = .ok [(0, c5Stored)] := by
  refine ⟨format_prediction_eq (conf / 100) cats hc hb, ?_, by decide⟩
  intro k r rs h
  simp only [gather_results]
  rw [h]
  cases gather_results (conf / 100) (k + 1) rs <;> rfl

/-- Witness for `threshold_filter` at the spec's example prediction. -/
theorem threshold_filter_witness :
    c5Prediction.detection_classes.length =
        c5Prediction.detection_scores.length ∧
    c5Prediction.detection_boxes.length =
        c5Prediction.detection_scores.length ∧
    (ThresholdClaim 30 c5Prediction
      ∧ (∀ (k : ℕ) (r : BatchResponse) (rs : List BatchResponse),
          async_post ((30 : ℚ) / 100) r = .ok none →
          gather_results ((30 : ℚ) / 100) k (r :: rs) =
            gather_results ((30 : ℚ) / 100) (k + 1) rs)
      ∧ batch_inference c5Server [0] 30 1 = .ok [(0, c5Stored)]) :=
  ⟨by decide, by decide,
    threshold_filter 30 c5Prediction (by decide) (by decide)⟩

/-! ## Claim C6: client-side batching and result keys -/

/-- Claim C6 as stated is false for client batch sizes above 1: with four
chips and batch size 2, only chip 2 bears a detection, yet the returned
map stores it under key 1 (the batch index) — and chip 1 bears no
detections at all, so not every key is the chip index of a
detection-bearing chip. -/
theorem batching_counterexample :
    batch_inference (perChipServer c6Preds) [0, 1, 2, 3] 0 2 =
      .ok [(1, ⟨[mkRat 9 10], [1], [(0, 0, 0, 0)]⟩)] ∧
    format_prediction ((0 : ℚ) / 100) (c6Preds 1) = .ok none :=
  ⟨by decide, by decide⟩

/-- Claim C6 (amended): the dispatcher splits the chip sequence into
`ceil(L / client_batch_size)` contiguous batches (for non-empty input and
positive batch size); the keys of the returned map are batch indices and
only the first chip of each batch is consulted, so only under the default
client batch size of 1 is every key the chip index of a detection-bearing
chip, with that key's value holding that chip's filtered detections. -/
theorem batching_amended :
    (∀ (α : Type) (xs : List α) (c : ℕ), 0 < c → 0 < xs.length →
      (np_array_split xs (ceil_div xs.length c)).length =
          ceil_div xs.length c ∧
        (np_array_split xs (ceil_div xs.length c)).flatten = xs)
    ∧ (∀ (preds : ℕ → Prediction) (L : ℕ) (conf : ℚ), 0 < L →
        (∀ j, j < L → predWf (preds j) = true) →
        PerChipDispatchClaim preds L conf) := by
  constructor
  · intro α xs c hc hx
    exact ⟨np_array_split_length xs _,
      np_array_split_flatten xs (ceil_div_pos hx hc)⟩
  · intro preds L conf hL hwf
    unfold PerChipDispatchClaim
    have hlen : (List.range L).length = L := List.length_range L
    have hnum : ceil_div (List.range L).length 1 = L := by
      rw [hlen, ceil_div_one]
    rw [batch_inference_pos (perChipServer preds) (List.range L) conf 1
      (by omega) (by rw [hnum]; omega)]
    rw [hnum]
    have hsplit : np_array_split (List.range L) L =
        (List.range L).map fun a => [a] := by
      have h0 := array_split_singletons (List.range L) (by rw [hlen]; exact hL)
      rwa [hlen] at h0
    rw [hsplit, List.map_map]
    have hresp : (perChipServer preds ∘ fun a => [a])
        = fun j => BatchResponse.json (some [preds j]) none := rfl
    rw [hresp]
    have hben : ∀ r ∈ (List.range L).map
        (fun j => BatchResponse.json (some [preds j]) none),
        benign r = true := by
      intro r hr
      rw [List.mem_map] at hr
      obtain ⟨j, hj, rfl⟩ := hr
      rw [List.mem_range] at hj
      simpa [benign] using hwf j hj
    obtain ⟨m, hm⟩ := gather_results_ok_of_benign (conf / 100) _ 0 hben
    refine ⟨m, hm, ?_⟩
    intro i fp
    rw [gather_results_mem (conf / 100) _ 0 m hm i fp]
    constructor
    · rintro ⟨j, hj, rfl, hap⟩
      have hjL : j < L := by simpa using hj
      simp only [List.getElem_map, List.getElem_range] at hap
      simp only [Nat.zero_add]
      exact ⟨hjL, hap⟩
    · rintro ⟨hiL, hfmt⟩
      have hj : i < ((List.range L).map
          (fun j => BatchResponse.json (some [preds j]) none)).length := by
        simpa using hiL
      refine ⟨i, hj, by omega, ?_⟩
      simp only [List.getElem_map, List.getElem_range]
      exact hfmt

/-- Witness for `batching_amended` at the per-chip predictions where only
chip 2 bears a detection. -/
theorem batching_amended_witness :
    (0 : ℕ) < 4 ∧ (∀ j, j < 4 → predWf (c6Preds j) = true) ∧
      PerChipDispatchClaim c6Preds 4 0 :=
  ⟨by decide, by decide, batching_amended.2 c6Preds 4 0 (by decide) (by decide)⟩

/-! ## Claim C10: the invariant of every stored entry -/

/-- Claim C10: every entry stored in the dispatcher's returned map has
equal, strictly positive lengths of scores, classes and boxes (they are
filtered by the same boolean mask and an entry is stored only when at
least one score survives), and every stored score is at or above the
converted confidence threshold. -/
theorem dispatch_stored_invariant {α : Type} (server : List α → BatchResponse)
    (instances : List α) (conf : ℚ) (c : ℕ)
    (m : List (ℕ × FormattedPrediction))
    (h : batch_inference server instances conf c = .ok m) :
    StoredInvariant conf m := by
  unfold batch_inference at h
  split at h
  · cases h
  · split at h
    · cases h
    · intro e he
      obtain ⟨i, fp⟩ := e
      obtain ⟨j, hj, _, hap⟩ :=
        (gather_results_mem (conf / 100) _ 0 m h i fp).mp he
      exact async_post_ok_some (conf / 100) _ hap

/-- Witness for `dispatch_stored_invariant` at the spec's threshold
example. -/
theorem dispatch_stored_invariant_witness :
    batch_inference c5Server [0] 30 1 = .ok [(0, c5Stored)] ∧
      StoredInvariant 30 [(0, c5Stored)] :=
  ⟨by decide,
    dispatch_stored_invariant c5Server [0] 30 1 [(0, c5Stored)] (by decide)⟩

/-! ## The Untiler -/

theorem unchip_go_eq (tl : List (ℕ × ℕ)) (ch cw : ℕ) :
    ∀ results : List (ℕ × FormattedPrediction),
      (∀ e ∈ results, e.1 < tl.length) →
      unchip_go tl ch cw results =
        .ok ⟨results.flatMap fun e =>
            e.2.detection_boxes.map
              (translate_bbox (tl.getD e.1 (0, 0)).1 (tl.getD e.1 (0, 0)).2
                ch cw),
          results.flatMap fun e => e.2.detection_scores,
          results.flatMap fun e => e.2.detection_classes⟩ := by
  intro results
  induction results with
  | nil => intro _; rfl
  | cons p rest ih =>
    intro h
    obtain ⟨i, res⟩ := p
    have hi : i < tl.length := h (i, res) (List.mem_cons_self ..)
    have hrest : ∀ e ∈ rest, e.1 < tl.length := fun e he =>
      h e (List.mem_cons_of_mem _ he)
    simp only [unchip_go]
    rw [List.getElem?_eq_getElem hi, ih hrest]
    simp [List.getD_eq_getElem?_getD, List.getElem?_eq_getElem hi]

/-! ## Claim C3: the Untiler's merge -/

/-- Claim C3 as stated is false: `unchip_geo_image` iterates the results
dict in its insertion order, not in ascending chip-index order — a map
whose keys were inserted as [1, 0] merges chip 1's detections before
chip 0's, unlike the ascending-order merge the claim prescribes
(`unchip_ascending_spec`). -/
theorem untiler_counterexample :
    unchip_geo_image "img" c3Results c3TopLefts 10 10 =
      .ok ("img", ⟨[(10, 0, 10, 0), (0, 0, 0, 0)],
        [mkRat 3 4, mkRat 1 2], [2, 1]⟩) ∧
    unchip_ascending_spec "img" c3Results c3TopLefts 10 10 =
      .ok ("img", ⟨[(0, 0, 0, 0), (10, 0, 10, 0)],
        [mkRat 1 2, mkRat 3 4], [1, 2]⟩) ∧
    ([mkRat 3 4, mkRat 1 2] : List ℚ) ≠ [mkRat 1 2, mkRat 3 4] :=
  ⟨by decide, by decide, by decide⟩

/-- Claim C3 (amended): for every image id, every sparse detection map and
every TopLeft array covering its keys, the Untiler returns normally
(missing indices are simply skipped) and concatenates each present
entry's translated boxes, scores and classes in the map's iteration
(insertion) order — every input detection appears exactly once, with
within-chip order preserved; ascending chip-index order holds only when
the keys were inserted in ascending order. -/
theorem untiler_merge (img_basename : String)
    (results : List (ℕ × FormattedPrediction)) (tl : List (ℕ × ℕ))
    (ch cw : ℕ) (hcov : ∀ e ∈ results, e.1 < tl.length) :
    UntilerClaim img_basename results tl ch cw := by
  unfold UntilerClaim unchip_geo_image
  rw [unchip_go_eq tl ch cw results hcov]
  rfl

/-- Witness for `untiler_merge` at a concrete sparse detection map. -/
theorem untiler_merge_witness :
    (∀ e ∈ c3Results, e.1 < c3TopLefts.length) ∧
      UntilerClaim "img" c3Results c3TopLefts 10 10 :=
  ⟨by decide, untiler_merge "img" c3Results c3TopLefts 10 10 (by decide)⟩

/-! ## Claim C4: denormalization of box coordinates -/

/-- Claim C4 as stated is false: untiling denormalizes with Python `int()`
truncation, not `round` — at normalized coordinate 0.3 and chip dimension
9 the code computes `int(2.7) = 2` while the spec's rounding computes 3
(`round_denormalize_spec`). -/
theorem denormalize_counterexample :
    denormalize_coordinates (mkRat 3 10, mkRat 3 10, mkRat 3 10, mkRat 3 10)
        9 9 = (2, 2, 2, 2) ∧
    round_denormalize_spec (mkRat 3 10, mkRat 3 10, mkRat 3 10, mkRat 3 10)
        9 9 = (3, 3, 3, 3) ∧
    ((2, 2, 2, 2) : ℤ × ℤ × ℤ × ℤ) ≠ (3, 3, 3, 3) :=
  ⟨by decide, by decide, by decide⟩

/-- Claim C4 (amended): untiling denormalizes each normalized box with
truncation — `top = int(ymin * chip_height)`, `left = int(xmin *
chip_width)`, `bottom = int(ymax * chip_height)`, `right = int(xmax *
chip_width)` — and then adds the chip's TopLeft (row_offset, col_offset)
to (top, bottom) and (left, right) respectively; the box
(0.1, 0.2, 0.3, 0.4) at TopLeft (100, 200) with chip_height =
chip_width = 500 still untiles to (top 150, left 300, bottom 250,
right 400), since those four products are whole numbers. -/
theorem denormalize_truncates :
    (∀ (y1 x1 y2 x2 : ℚ) (yo xo ch cw : ℕ),
      translate_bbox yo xo ch cw (y1, x1, y2, x2) =
        ((yo : ℤ) + pyInt (y1 * ch), (xo : ℤ) + pyInt (x1 * cw),
         (yo : ℤ) + pyInt (y2 * ch), (xo : ℤ) + pyInt (x2 * cw)))
    ∧ unchip_geo_image "img"
        [(0, ⟨[mkRat 9 10], [1],
          [(mkRat 1 10, mkRat 2 10, mkRat 3 10, mkRat 4 10)]⟩)]
        [(100, 200)] 500 500 =
      .ok ("img", ⟨[(150, 300, 250, 400)], [mkRat 9 10], [1]⟩) :=
  ⟨fun y1 x1 y2 x2 yo xo ch cw => rfl, by decide⟩

end DebrisScan
